import Mathlib

/-!
# Verification of the `skyline` procedural-generation core

Shallow embedding of `src/skyline.rs` and `src/util.rs` of the `skyline`
repository, together with proofs about the embedded definitions.

Modelling conventions:
* Rust `u32` values are modelled as `ℕ`; `i32` values as `ℤ` with explicit
  range checks where the source performs checked arithmetic or casts.
* The ambient thread-local random generator (`thread_rng()`) is modelled as an
  explicit infinite stream `ℕ → RandCell` together with a cursor `k : ℕ` that is
  advanced once per draw.  Uniform draws `gen_range(lo..hi)` are modelled as
  `lo + raw % (hi - lo)`, which is always inside a non-empty range.
* The `f64` trigonometry in the Poisson-disc sampler computes an offset
  `((radius * cos θ) as i32, (radius * sin θ) as i32)` with `radius` uniform in
  `[min_distance, 2·min_distance]`; since `|cos θ| ≤ 1`, `|sin θ| ≤ 1`, and the
  `as i32` cast truncates toward zero, the offset is always an integer pair
  with both components in `[-2·min_distance, 2·min_distance]`.  The model lets
  the stream supply the integer offsets directly, clamped to exactly that
  range (so the adversarial stream ranges over every value the source can
  produce).
* The `f64` distance comparison `sqrt(dx² + dy²) >= d` over integer inputs is
  modelled exactly in integer arithmetic as `d² ≤ dx² + dy²`.
* Loops whose termination is not structurally evident (`loop` in
  `RandomBuildingGenerator::next`, the active-list loop in
  `sample_poisson_disc_2d`) are modelled with explicit fuel, returning `none`
  when the fuel runs out; a `panic` (out-of-bounds draw on an empty range,
  failed `assert!`) is also modelled as `none`.
-/

/-- `Pixel` from `skyline.rs`. -/
inductive Pixel
  | Background
  | Border
  | Window
deriving DecidableEq, Repr

/-- A column of pixels (`Vec<Pixel>` in the source). -/
abbrev Column := List Pixel

/-- `itertools`' `tuple_windows` for triples: all windows of three consecutive
elements of a list. -/
def tupleWindows3 {α : Type} : List α → List (α × α × α)
  | a :: b :: c :: rest => (a, b, c) :: tupleWindows3 (b :: c :: rest)
  | _ => []

/-- The `filter_map` closure of `skyline` in `skyline.rs`: given a window
`(previous, current, next)`, keep `current` exactly when it is at least as long
as `previous` and at least as long as `next`. -/
def dipFilter (w : Column × Column × Column) : Option Column :=
  if w.2.1.length ≥ w.1.length then
    if w.2.1.length ≥ w.2.2.length then some w.2.1 else none
  else none

/-- The column filter of `skyline` in `skyline.rs`, applied to a finite prefix
`cols` of the flattened building-column sequence: prepend one empty column
(`iter::once(vec![])`), take all 3-windows, and `filter_map` with
`dipFilter`. -/
def skylineFilter (cols : List Column) : List Column :=
  (tupleWindows3 (([] : Column) :: cols)).filterMap dipFilter

/-- Length of the predecessor of `cols[j]` in the seeded sequence: the seed
column is empty, so position `0` has predecessor length `0`. -/
def prevLen (cols : List Column) (j : ℕ) : ℕ :=
  if j = 0 then 0 else (cols.getD (j - 1) []).length

/-- The emission rule as the specification words it: column `j` of the
underlying sequence is emitted exactly when it is at least as long as its
predecessor (the seed column for `j = 0`) and at least as long as its
successor.  Only positions that have a successor inside the prefix are
decided. -/
def emittedColumns (cols : List Column) : List Column :=
  (List.range (cols.length - 1)).filterMap fun j =>
    if (cols.getD j []).length ≥ prevLen cols j
        ∧ (cols.getD j []).length ≥ (cols.getD (j + 1) []).length
    then some (cols.getD j []) else none

/-- `Building` from `skyline.rs`. -/
structure Building where
  height : ℕ
  width : ℕ
  windows : List (ℕ × ℕ)
deriving DecidableEq, Repr

/-- One column of `Building::iter_columns`: for a zero-height building the
column is empty; otherwise edge columns are all `Border`, interior columns are
`Background` with a `Border` rooftop cell at row `0`, and every window whose
`x` equals the column index overwrites the cell at its `y` row with `Window`.
(The source writes `pixels[y] = Window`, which panics when `y` is out of
range; `List.set` is a no-op there.  All claims about windows are stated for
in-range windows, where the two coincide.) -/
def buildingColumn (b : Building) (col : ℕ) : Column :=
  if b.height = 0 then []
  else
    let base : Column :=
      if col = 0 ∨ col = b.width - 1 then List.replicate b.height Pixel.Border
      else (List.replicate b.height Pixel.Background).set 0 Pixel.Border
    b.windows.foldl
      (fun pixels w => if w.1 ≠ col then pixels else pixels.set w.2 Pixel.Window) base

/-- `Building::iter_columns`: the `width`-many columns, left to right. -/
def iterColumns (b : Building) : List Column :=
  (List.range b.width).map (buildingColumn b)

/-- One cell of the modelled ambient random stream (`thread_rng()`).  `nat`
feeds integer `gen_range` draws; `dx`/`dy` feed the candidate offset of the
Poisson-disc sampler (the angle and radius draws combined: the truncated
`(radius·cos θ, radius·sin θ)` pair, clamped by the sampler to the range that
pair can actually take). -/
structure RandCell where
  nat : ℕ
  dx : ℤ
  dy : ℤ
deriving DecidableEq, Repr

/-- `rng.gen_range(lo..hi)`: a value in `[lo, hi)` whenever the range is
non-empty (the source panics on an empty range; callers guard that case). -/
def genRange (lo hi raw : ℕ) : ℕ := lo + raw % (hi - lo)

def i32MaxZ : ℤ := 2 ^ 31 - 1

def i32MinZ : ℤ := -(2 ^ 31)

def i32MaxN : ℕ := 2 ^ 31 - 1

/-- Clamp an integer to `[-(bound), bound]`: the range of the truncated
offset component `(radius · cos θ) as i32` when `radius ≤ bound`. -/
def clampAbs (bound v : ℤ) : ℤ := max (-bound) (min bound v)

/-- Squared Euclidean distance between two lattice points. -/
def sqDist (a b : ℕ × ℕ) : ℤ := ((a.1 : ℤ) - (b.1 : ℤ)) ^ 2 + ((a.2 : ℤ) - (b.2 : ℤ)) ^ 2

/-- The rejection test of `sample_poisson_disc_2d`: the candidate is far
enough when its distance to every existing sample is at least `minDist`.  The
source compares `sqrt((Δx)² + (Δy)²) >= minDist` in `f64`; over the integer
inputs this is modelled exactly as `minDist² ≤ (Δx)² + (Δy)²`. -/
def farEnough (minDist : ℕ) (samples : List (ℕ × ℕ)) (p : ℕ × ℕ) : Bool :=
  samples.all fun sample => decide ((minDist : ℤ) ^ 2 ≤ sqDist sample p)

/-- The candidate-coordinate checks of `sample_poisson_disc_2d`: `checked_add`
on `i32` (overflow rejects the candidate), negativity rejection, then domain
bounds. -/
def candidatePoint (width height cx cy : ℕ) (dx dy : ℤ) : Option (ℕ × ℕ) :=
  if (cx : ℤ) + dx < i32MinZ ∨ i32MaxZ < (cx : ℤ) + dx then none
  else if (cy : ℤ) + dy < i32MinZ ∨ i32MaxZ < (cy : ℤ) + dy then none
  else if (cx : ℤ) + dx < 0 ∨ (cy : ℤ) + dy < 0 then none
  else
    let x := ((cx : ℤ) + dx).toNat
    let y := ((cy : ℤ) + dy).toNat
    if width ≤ x ∨ height ≤ y then none
    else some (x, y)

/-- The inner candidate loop (`for _ in 0..MAX_TEST_SAMPLES`) of
`sample_poisson_disc_2d`: up to `attempts` tries around the center
`(cx, cy)`; each try consumes one stream cell for the angle/radius pair and
turns it into an integer offset with both components in
`[-2·minDist, 2·minDist]` (the exact range of
`(radius·cos θ) as i32` for `radius` uniform in `[minDist, 2·minDist]`).
Returns the first accepted candidate, if any, and the advanced cursor. -/
def tryCandidates (rng : ℕ → RandCell) (minDist width height : ℕ)
    (samples : List (ℕ × ℕ)) (cx cy : ℕ) : ℕ → ℕ → Option (ℕ × ℕ) × ℕ
  | 0, k => (none, k)
  | attempts + 1, k =>
    let a := rng k
    let dx := clampAbs (2 * (minDist : ℤ)) a.dx
    let dy := clampAbs (2 * (minDist : ℤ)) a.dy
    match candidatePoint width height cx cy dx dy with
    | none => tryCandidates rng minDist width height samples cx cy attempts (k + 1)
    | some p =>
      if farEnough minDist samples p then (some p, k + 1)
      else tryCandidates rng minDist width height samples cx cy attempts (k + 1)

/-- `Vec::swap_remove`: replace position `i` with the last element and drop
the last element. -/
def swapRemove (l : List ℕ) (i : ℕ) : List ℕ :=
  (l.set i (l.getD (l.length - 1) 0)).dropLast

/-- The active-list loop (`while !active_list.is_empty()`) of
`sample_poisson_disc_2d`, with explicit fuel: `none` means the fuel ran out
before the loop finished. -/
def poissonLoop (rng : ℕ → RandCell) (minDist width height : ℕ) :
    ℕ → List (ℕ × ℕ) → List ℕ → ℕ → Option (List (ℕ × ℕ) × ℕ)
  | 0, _, _, _ => none
  | fuel + 1, samples, active, k =>
    if active.isEmpty then some (samples, k)
    else
      let centerIndex := genRange 0 active.length (rng k).nat
      let center := active.getD centerIndex 0
      let cp := samples.getD center (0, 0)
      match tryCandidates rng minDist width height samples cp.1 cp.2 30 (k + 1) with
      | (some p, k2) =>
          poissonLoop rng minDist width height fuel
            (samples ++ [p]) (active ++ [samples.length]) k2
      | (none, k2) =>
          poissonLoop rng minDist width height fuel
            samples (swapRemove active centerIndex) k2

/-- `sample_poisson_disc_2d` from `util.rs`.  The leading `assert!`s and the
panic of `gen_range` on an empty domain are modelled as `none`; the seed point
consumes cells `k` and `k + 1`. -/
def samplePoissonDisc2d (rng : ℕ → RandCell) (minDist width height fuel k : ℕ) :
    Option (List (ℕ × ℕ) × ℕ) :=
  if ¬ (minDist ≤ i32MaxN / 2 ∧ width ≤ i32MaxN ∧ height ≤ i32MaxN) then none
  else if width = 0 ∨ height = 0 then none
  else
    let x0 := genRange 0 width (rng k).nat
    let y0 := genRange 0 height (rng (k + 1)).nat
    poissonLoop rng minDist width height fuel [(x0, y0)] [0] (k + 2)

/-- `SliceRandom::choose_multiple`: sample `amount` elements without
replacement (modelled by repeatedly drawing an index into the remaining
elements); returns all elements when `amount` exceeds their number. -/
def chooseMultiple (rng : ℕ → RandCell) : ℕ → List (ℕ × ℕ) → ℕ → List (ℕ × ℕ) × ℕ
  | 0, _, k => ([], k)
  | amount + 1, l, k =>
    if l.length = 0 then ([], k)
    else
      let i := (rng k).nat % l.length
      let rest := chooseMultiple rng amount (l.eraseIdx i) (k + 1)
      (l.getD i (0, 0) :: rest.1, rest.2)

/-- `RandomBuildingGenerator::gen_windows`: no windows for small buildings;
otherwise Poisson-disc points over the inset `(width - 4) × (height - 3)`
sub-rectangle, a random subset of size at most `maxWindows`, shifted by
`(+2, +2)`. -/
def genWindows (rng : ℕ → RandCell) (minDist maxWindows width height fuel k : ℕ) :
    Option (List (ℕ × ℕ) × ℕ) :=
  if width < 5 ∨ height < 4 then some ([], k)
  else
    match samplePoissonDisc2d rng minDist (width - 4) (height - 3) fuel k with
    | none => none
    | some (pts, k1) =>
      let chosen := chooseMultiple rng maxWindows pts k1
      some (chosen.1.map fun p => (p.1 + 2, p.2 + 2), chosen.2)

/-- Configuration of `RandomBuildingGenerator` (half-open height and width
ranges, plus the window parameters). -/
structure GenConfig where
  heightLo : ℕ
  heightHi : ℕ
  widthLo : ℕ
  widthHi : ℕ
  maxWindows : ℕ
  minWindowDistance : ℕ
deriving DecidableEq, Repr

/-- The height redraw loop of `RandomBuildingGenerator::next`: draw from the
height range until the value differs from `prev`, with explicit fuel. -/
def drawHeight (rng : ℕ → RandCell) (lo hi prev : ℕ) : ℕ → ℕ → Option (ℕ × ℕ)
  | 0, _ => none
  | fuel + 1, k =>
    let h := genRange lo hi (rng k).nat
    if h ≠ prev then some (h, k + 1) else drawHeight rng lo hi prev fuel (k + 1)

/-- `RandomBuildingGenerator::next`: draw a fresh height (no-immediate-repeat
loop), draw a width, generate windows.  Returns the building, the updated
`previous_height`, and the advanced cursor. -/
def nextBuilding (rng : ℕ → RandCell) (cfg : GenConfig) (prev fuel k : ℕ) :
    Option (Building × ℕ × ℕ) :=
  match drawHeight rng cfg.heightLo cfg.heightHi prev fuel k with
  | none => none
  | some (h, k1) =>
    let w := genRange cfg.widthLo cfg.widthHi (rng k1).nat
    match genWindows rng cfg.minWindowDistance cfg.maxWindows w h fuel (k1 + 1) with
    | none => none
    | some (ws, k2) => some (⟨h, w, ws⟩, h, k2)

/-- `n` successive draws from `RandomBuildingGenerator`, threading
`previous_height` (initially `0`, as in the constructor) and the cursor. -/
def genBuildings (rng : ℕ → RandCell) (cfg : GenConfig) :
    ℕ → ℕ → ℕ → ℕ → Option (List Building × ℕ × ℕ)
  | 0, prev, _, k => some ([], prev, k)
  | n + 1, prev, fuel, k =>
    match nextBuilding rng cfg prev fuel k with
    | none => none
    | some (b, prev2, k2) =>
      match genBuildings rng cfg n prev2 fuel k2 with
      | none => none
      | some (bs, prev3, k3) => some (b :: bs, prev3, k3)

/-- The `skyline` pipeline of `skyline.rs` on the first `n` generated
buildings: generator, column rasterizer, flattening, and the dip filter
(seeded with one empty column). -/
def runPipeline (rng : ℕ → RandCell) (cfg : GenConfig) (n fuel : ℕ) : Option (List Column) :=
  match genBuildings rng cfg n 0 fuel 0 with
  | none => none
  | some (bs, _, _) => some (skylineFilter (bs.flatMap iterColumns))

/-- The symmetric integer range `-r..=r` of `filled_circle`. -/
def rangeSym (r : ℕ) : List ℤ :=
  (List.range (2 * r + 1)).map fun i : ℕ => (i : ℤ) - (r : ℤ)

/-- `filled_circle` from `util.rs`: row-major enumeration of the bounding
square, keeping the points strictly inside the disc, shifted to the center.
The leading `assert!`s (no overflow of `x² + y²` and of the shifted
coordinates) are modelled as a guard returning `[]` (a panic in the
source). -/
def filledCircle (cx cy : ℤ) (radius : ℕ) : List (ℤ × ℤ) :=
  if ¬ (2 * (radius : ℤ) ^ 2 ≤ i32MaxZ
      ∧ cx ≤ i32MaxZ - (radius : ℤ) ∧ i32MinZ + (radius : ℤ) ≤ cx
      ∧ cy ≤ i32MaxZ - (radius : ℤ) ∧ i32MinZ + (radius : ℤ) ≤ cy) then []
  else
    (((rangeSym radius).flatMap fun x => (rangeSym radius).map fun y => (x, y)).filter
        fun p => decide (p.1 * p.1 + p.2 * p.2 < (radius : ℤ) * (radius : ℤ))).map
      fun p => (p.1 + cx, p.2 + cy)

/-- Underlying column lengths `[5, 3, 4, 2, 6, 0]`, realized as concrete
columns: a counterexample input for the emitted-dip property. -/
def dipCexCols : List Column :=
  [List.replicate 5 Pixel.Border, List.replicate 3 Pixel.Border,
   List.replicate 4 Pixel.Border, List.replicate 2 Pixel.Border,
   List.replicate 6 Pixel.Border, []]

/-- A concrete ambient stream: integer draws `0` and candidate offsets
pointing straight up by two pixels (`dx = 0`, `dy = 2`). -/
def cexRand : ℕ → RandCell := fun _ => ⟨0, 0, 2⟩

/-- A concrete generator configuration: heights in `6..8`, widths in `5..6`,
at most `2` windows, minimum window distance `2`. -/
def cexCfg : GenConfig := ⟨6, 8, 5, 6, 2, 2⟩

/-- Ambient stream of a first concrete run of the pipeline. -/
def ambientRandA : ℕ → RandCell := fun k => ⟨if k = 2 then 1 else 0, 0, 0⟩

/-- Ambient stream of a second concrete run of the pipeline. -/
def ambientRandB : ℕ → RandCell := fun k => ⟨if k = 0 then 1 else 0, 0, 0⟩

/-- A concrete generator configuration: heights in `1..3`, widths in `1..2`,
no windows. -/
def pipeCfg : GenConfig := ⟨1, 3, 1, 2, 0, 0⟩

/-! ## Theorems -/

theorem dipFilter_eq (p c n : Column) :
    dipFilter (p, c, n) =
      if c.length ≥ p.length ∧ c.length ≥ n.length then some c else none := by
  by_cases h1 : c.length ≥ p.length <;> by_cases h2 : c.length ≥ n.length <;>
    simp [dipFilter, h1, h2]

theorem tupleWindows3_filterMap_char (p : Column) (cols : List Column) :
    (tupleWindows3 (p :: cols)).filterMap dipFilter =
      (List.range (cols.length - 1)).filterMap fun j =>
        if (cols.getD j []).length ≥ (if j = 0 then p else cols.getD (j - 1) []).length
            ∧ (cols.getD j []).length ≥ (cols.getD (j + 1) []).length
        then some (cols.getD j []) else none := by
  induction cols generalizing p with
  | nil => rfl
  | cons c rest ih =>
    cases rest with
    | nil => rfl
    | cons n rest2 =>
      have hlen : (c :: n :: rest2).length - 1 = rest2.length + 1 := by simp
      rw [show tupleWindows3 (p :: c :: n :: rest2)
            = (p, c, n) :: tupleWindows3 (c :: n :: rest2) from rfl,
        List.filterMap_cons, ih c, hlen, List.range_succ_eq_map, List.filterMap_cons,
        List.filterMap_map]
      have hfun :
          ((fun j =>
            if ((c :: n :: rest2).getD j []).length
                  ≥ (if j = 0 then p else (c :: n :: rest2).getD (j - 1) []).length
                ∧ ((c :: n :: rest2).getD j []).length
                  ≥ ((c :: n :: rest2).getD (j + 1) []).length
            then some ((c :: n :: rest2).getD j []) else none) ∘ Nat.succ)
          = fun j =>
            if ((n :: rest2).getD j []).length
                  ≥ (if j = 0 then c else (n :: rest2).getD (j - 1) []).length
                ∧ ((n :: rest2).getD j []).length
                  ≥ ((n :: rest2).getD (j + 1) []).length
            then some ((n :: rest2).getD j []) else none := by
        funext j
        cases j with
        | zero => simp
        | succ m => simp
      rw [hfun]
      have hhead :
          (if ((c :: n :: rest2).getD 0 []).length
                ≥ (if (0 : ℕ) = 0 then p else (c :: n :: rest2).getD (0 - 1) []).length
              ∧ ((c :: n :: rest2).getD 0 []).length
                ≥ ((c :: n :: rest2).getD (0 + 1) []).length
            then some ((c :: n :: rest2).getD 0 []) else none)
          = dipFilter (p, c, n) := by
        rw [dipFilter_eq]
        simp
      rw [hhead]
      simp

/-- C1: a column of the seeded underlying sequence is emitted by the skyline
filter exactly when it is at least as long as its predecessor and at least as
long as its successor in that sequence; the filter output is precisely the
in-order list of columns passing that test, every failing column being
dropped. -/
theorem skylineFilter_eq_emittedColumns (cols : List Column) :
    skylineFilter cols = emittedColumns cols := by
  unfold skylineFilter emittedColumns
  rw [tupleWindows3_filterMap_char]
  apply List.filterMap_congr
  intro j _
  by_cases hj : j = 0
  · subst hj; simp [prevLen]
  · simp [prevLen, hj]

/-- C2 counterexample: on the underlying column lengths `[5, 3, 4, 2, 6, 0]`
the filter emits the columns of lengths `[5, 4, 6]`, whose middle column is
strictly shorter than both of its emitted neighbors. -/
theorem skyline_emits_dip_cex :
    (skylineFilter dipCexCols).map List.length = [5, 4, 6] ∧
      ((skylineFilter dipCexCols).getD 1 []).length
          < ((skylineFilter dipCexCols).getD 0 []).length ∧
      ((skylineFilter dipCexCols).getD 1 []).length
          < ((skylineFilter dipCexCols).getD 2 []).length := by
  decide

/-- C2 amended: every column emitted by the skyline filter is at least as long
as both of its immediate neighbors in the underlying (pre-filter, seeded)
sequence; the corresponding guarantee for its neighbors in the *emitted*
sequence does not hold. -/
theorem skyline_emitted_ge_underlying_neighbors (cols : List Column) (c : Column)
    (hc : c ∈ skylineFilter cols) :
    ∃ j, j + 1 < cols.length ∧ c = cols.getD j [] ∧
      prevLen cols j ≤ c.length ∧ (cols.getD (j + 1) []).length ≤ c.length := by
  unfold skylineFilter at hc
  rw [tupleWindows3_filterMap_char, List.mem_filterMap] at hc
  obtain ⟨j, hj, hsome⟩ := hc
  rw [List.mem_range] at hj
  by_cases hcond :
      (cols.getD j []).length
          ≥ (if j = 0 then ([] : Column) else cols.getD (j - 1) []).length
        ∧ (cols.getD j []).length ≥ (cols.getD (j + 1) []).length
  · rw [if_pos hcond] at hsome
    obtain ⟨h1, h2⟩ := hcond
    have hceq : cols.getD j [] = c := Option.some.inj hsome
    refine ⟨j, by omega, hceq.symm, ?_, hceq ▸ h2⟩
    rw [← hceq]
    by_cases hj0 : j = 0
    · subst hj0; simp [prevLen]
    · simpa [prevLen, hj0] using h1
  · rw [if_neg hcond] at hsome
    exact absurd hsome (by simp)

/-- C2 amended, witnessed at a concrete input. -/
theorem skyline_emitted_ge_underlying_neighbors_witness :
    List.replicate 2 Pixel.Border ∈
        skylineFilter [List.replicate 2 Pixel.Border, List.replicate 1 Pixel.Border] ∧
      ∃ j, j + 1 < ([List.replicate 2 Pixel.Border, List.replicate 1 Pixel.Border] :
            List Column).length ∧
        List.replicate 2 Pixel.Border =
          ([List.replicate 2 Pixel.Border, List.replicate 1 Pixel.Border] :
            List Column).getD j [] ∧
        prevLen [List.replicate 2 Pixel.Border, List.replicate 1 Pixel.Border] j
            ≤ (List.replicate 2 Pixel.Border).length ∧
        (([List.replicate 2 Pixel.Border, List.replicate 1 Pixel.Border] :
            List Column).getD (j + 1) []).length ≤ (List.replicate 2 Pixel.Border).length :=
  ⟨by decide, skyline_emitted_ge_underlying_neighbors _ _ (by decide)⟩

theorem drawHeight_some (rng : ℕ → RandCell) (lo hi prev : ℕ) :
    ∀ fuel k h k2, drawHeight rng lo hi prev fuel k = some (h, k2) → h ≠ prev := by
  intro fuel
  induction fuel with
  | zero => intro k h k2 hres; exact absurd hres (by simp [drawHeight])
  | succ f ih =>
    intro k h k2 hres
    simp only [drawHeight] at hres
    split at hres
    · rename_i hne
      obtain ⟨h1, -⟩ := Prod.mk.injEq .. ▸ Option.some.inj hres
      exact h1 ▸ hne
    · exact ih (k + 1) h k2 hres

theorem nextBuilding_some (rng : ℕ → RandCell) (cfg : GenConfig) (prev fuel k : ℕ)
    (b : Building) (prev2 k2 : ℕ)
    (hres : nextBuilding rng cfg prev fuel k = some (b, prev2, k2)) :
    b.height ≠ prev ∧ prev2 = b.height := by
  unfold nextBuilding at hres
  rcases hdh : drawHeight rng cfg.heightLo cfg.heightHi prev fuel k with - | ⟨h, k1⟩
  · rw [hdh] at hres; exact absurd hres (by simp)
  · rw [hdh] at hres
    dsimp only at hres
    rcases hgw : genWindows rng cfg.minWindowDistance cfg.maxWindows
        (genRange cfg.widthLo cfg.widthHi (rng k1).nat) h fuel (k1 + 1) with - | ⟨ws, k3⟩
    · rw [hgw] at hres; exact absurd hres (by simp)
    · rw [hgw] at hres
      simp only [Option.some.injEq, Prod.mk.injEq] at hres
      obtain ⟨hb, hp, -⟩ := hres
      subst hb
      exact ⟨drawHeight_some rng _ _ prev fuel k h k1 hdh, hp.symm⟩

theorem genBuildings_chain (rng : ℕ → RandCell) (cfg : GenConfig) :
    ∀ n prev fuel k bs prev3 k3,
      genBuildings rng cfg n prev fuel k = some (bs, prev3, k3) →
      List.Chain' (fun a b => a.height ≠ b.height) bs ∧
        ∀ b0 ∈ bs.head?, b0.height ≠ prev := by
  intro n
  induction n with
  | zero =>
    intro prev fuel k bs prev3 k3 hres
    obtain ⟨hbs, -⟩ := Prod.mk.injEq .. ▸ Option.some.inj hres
    subst hbs
    simp
  | succ m ih =>
    intro prev fuel k bs prev3 k3 hres
    simp only [genBuildings] at hres
    rcases hnb : nextBuilding rng cfg prev fuel k with - | ⟨b, prev2, k2⟩
    · rw [hnb] at hres; exact absurd hres (by simp)
    · rw [hnb] at hres
      dsimp only at hres
      rcases hgb : genBuildings rng cfg m prev2 fuel k2 with - | ⟨bs2, prev4, k4⟩
      · rw [hgb] at hres; exact absurd hres (by simp)
      · rw [hgb] at hres
        simp only [Option.some.injEq, Prod.mk.injEq] at hres
        obtain ⟨hbs, -, -⟩ := hres
        subst hbs
        obtain ⟨hb_ne, hprev2⟩ := nextBuilding_some rng cfg prev fuel k b prev2 k2 hnb
        obtain ⟨hchain, hhead⟩ := ih prev2 fuel k2 bs2 prev4 k4 hgb
        constructor
        · rw [List.chain'_cons']
          refine ⟨?_, hchain⟩
          intro y hy
          exact fun hcontra => (hhead y hy) (hcontra ▸ hprev2 ▸ rfl)
        · intro b0 hb0
          simp only [List.head?_cons, Option.mem_def, Option.some.injEq] at hb0
          subst hb0
          exact hb_ne

/-- C4: whenever the building generator returns a sequence of buildings, no
two consecutively generated buildings have equal heights (the redraw loop only
exits on a height different from the previous one). -/
theorem genBuildings_no_consecutive_equal_heights (rng : ℕ → RandCell) (cfg : GenConfig)
    (n prev fuel k : ℕ) (bs : List Building) (prev3 k3 : ℕ)
    (hgen : genBuildings rng cfg n prev fuel k = some (bs, prev3, k3)) :
    List.Chain' (fun a b => a.height ≠ b.height) bs :=
  (genBuildings_chain rng cfg n prev fuel k bs prev3 k3 hgen).1

/-- C4, witnessed on a concrete run of the generator. -/
theorem genBuildings_no_consecutive_equal_heights_witness :
    genBuildings ambientRandA pipeCfg 2 0 10 0 =
        some ([⟨1, 1, []⟩, ⟨2, 1, []⟩], 2, 4) ∧
      List.Chain' (fun a b => a.height ≠ b.height)
        [(⟨1, 1, []⟩ : Building), ⟨2, 1, []⟩] :=
  ⟨by decide, genBuildings_no_consecutive_equal_heights ambientRandA pipeCfg 2 0 10 0
    [⟨1, 1, []⟩, ⟨2, 1, []⟩] 2 4 (by decide)⟩

theorem sqDist_nonneg (a b : ℕ × ℕ) : 0 ≤ sqDist a b := by
  unfold sqDist
  positivity

theorem genRange_lt (lo hi raw : ℕ) (h : lo < hi) : genRange lo hi raw < hi := by
  unfold genRange
  have := Nat.mod_lt raw (show 0 < hi - lo by omega)
  omega

theorem getD_mem_or_default {α : Type} (l : List α) (i : ℕ) (d : α) :
    l.getD i d ∈ l ∨ l.getD i d = d := by
  by_cases hi : i < l.length
  · left
    rw [List.getD_eq_getElem?_getD, List.getElem?_eq_getElem hi]
    exact List.getElem_mem hi
  · right
    rw [List.getD_eq_getElem?_getD, List.getElem?_eq_none (by omega)]
    rfl

theorem farEnough_zero (samples : List (ℕ × ℕ)) (p : ℕ × ℕ) :
    farEnough 0 samples p = true := by
  unfold farEnough
  rw [List.all_eq_true]
  intro x hx
  rw [decide_eq_true_eq]
  calc ((0 : ℕ) : ℤ) ^ 2 = 0 := by norm_num
    _ ≤ sqDist x p := sqDist_nonneg x p

theorem candidatePoint_zero_offset (w h cx cy : ℕ) (hcx : cx < w) (hcy : cy < h)
    (hw : w ≤ i32MaxN) (hh : h ≤ i32MaxN) :
    candidatePoint w h cx cy 0 0 = some (cx, cy) := by
  have hwz : (w : ℤ) ≤ i32MaxZ := by unfold i32MaxZ; unfold i32MaxN at hw; omega
  have hhz : (h : ℤ) ≤ i32MaxZ := by unfold i32MaxZ; unfold i32MaxN at hh; omega
  have hminz : i32MinZ < 0 := by unfold i32MinZ; omega
  unfold candidatePoint
  rw [if_neg (by omega), if_neg (by omega), if_neg (by omega)]
  dsimp only
  rw [if_neg (by omega)]
  simp

theorem clampAbs_zero (v : ℤ) : clampAbs (2 * ((0 : ℕ) : ℤ)) v = 0 := by
  unfold clampAbs
  omega

theorem tryCandidates_minDistZero (rng : ℕ → RandCell) (w h : ℕ)
    (samples : List (ℕ × ℕ)) (cx cy : ℕ) (att k : ℕ)
    (hcx : cx < w) (hcy : cy < h) (hw : w ≤ i32MaxN) (hh : h ≤ i32MaxN) :
    tryCandidates rng 0 w h samples cx cy (att + 1) k = (some (cx, cy), k + 1) := by
  simp only [tryCandidates]
  rw [clampAbs_zero, clampAbs_zero, candidatePoint_zero_offset w h cx cy hcx hcy hw hh]
  dsimp only
  rw [farEnough_zero]
  simp

theorem poissonLoop_minDistZero (rng : ℕ → RandCell) (w h : ℕ)
    (hw0 : 0 < w) (hh0 : 0 < h) (hw : w ≤ i32MaxN) (hh : h ≤ i32MaxN) :
    ∀ fuel samples active k,
      (∀ p ∈ samples, p.1 < w ∧ p.2 < h) → active ≠ [] →
      poissonLoop rng 0 w h fuel samples active k = none := by
  intro fuel
  induction fuel with
  | zero => intros; rfl
  | succ f ih =>
    intro samples active k hs ha
    simp only [poissonLoop]
    rw [if_neg (by simpa [List.isEmpty_iff] using ha)]
    have hcpb : ∀ cp : ℕ × ℕ,
        cp = samples.getD (active.getD (genRange 0 active.length (rng k).nat) 0) (0, 0) →
        cp.1 < w ∧ cp.2 < h := by
      intro cp hcp
      rcases getD_mem_or_default samples
          (active.getD (genRange 0 active.length (rng k).nat) 0) (0, 0) with hm | he
      · exact hs _ (hcp ▸ hm)
      · rw [hcp, he]
        exact ⟨hw0, hh0⟩
    obtain ⟨hb1, hb2⟩ := hcpb _ rfl
    rw [show (30 : ℕ) = 29 + 1 from rfl,
      tryCandidates_minDistZero rng w h samples _ _ 29 (k + 1) hb1 hb2 hw hh]
    dsimp only
    apply ih
    · intro p hp
      rcases List.mem_append.mp hp with hm | hm
      · exact hs p hm
      · rw [List.mem_singleton] at hm
        subst hm
        exact ⟨hb1, hb2⟩
    · simp

/-- C3 (code-bug exhibit): with `min_distance = 0` the Poisson-disc sampler
never terminates — for every amount of fuel and every random stream the
active-list loop fails to finish, because the radius draw is pinned to `0`, so
every candidate coincides with its (in-bounds) center, passes the
distance-`≥ 0` test, and is accepted, and the active list never empties.  The
hypotheses make the source's `assert!`s and the seed draw succeed, so `none`
can only mean fuel exhaustion. -/
theorem samplePoissonDisc2d_minDistZero_diverges (rng : ℕ → RandCell) (w h fuel k : ℕ)
    (hw0 : 0 < w) (hh0 : 0 < h) (hw : w ≤ i32MaxN) (hh : h ≤ i32MaxN) :
    samplePoissonDisc2d rng 0 w h fuel k = none := by
  unfold samplePoissonDisc2d
  rw [if_neg (by simp [hw, hh]), if_neg (by omega)]
  dsimp only
  apply poissonLoop_minDistZero rng w h hw0 hh0 hw hh
  · intro p hp
    rw [List.mem_singleton] at hp
    subst hp
    exact ⟨genRange_lt 0 w _ hw0, genRange_lt 0 h _ hh0⟩
  · simp

/-- C3, witnessed: a concrete diverging call. -/
theorem samplePoissonDisc2d_minDistZero_diverges_witness :
    samplePoissonDisc2d cexRand 0 1 1 5 0 = none :=
  samplePoissonDisc2d_minDistZero_diverges cexRand 1 1 5 0 (by decide) (by decide)
    (by decide) (by decide)

theorem candidatePoint_some (w h cx cy : ℕ) (dx dy : ℤ) (p : ℕ × ℕ)
    (hc : candidatePoint w h cx cy dx dy = some p) : p.1 < w ∧ p.2 < h := by
  unfold candidatePoint at hc
  split at hc
  · exact absurd hc (by simp)
  · split at hc
    · exact absurd hc (by simp)
    · split at hc
      · exact absurd hc (by simp)
      · dsimp only at hc
        split at hc
        · exact absurd hc (by simp)
        · rename_i hbound
          push_neg at hbound
          rw [← Option.some.inj hc]
          exact ⟨hbound.1, hbound.2⟩

theorem farEnough_true (d : ℕ) (samples : List (ℕ × ℕ)) (p : ℕ × ℕ)
    (hfar : farEnough d samples p = true) :
    ∀ s ∈ samples, (d : ℤ) ^ 2 ≤ sqDist s p := by
  unfold farEnough at hfar
  rw [List.all_eq_true] at hfar
  intro s hs
  exact decide_eq_true_eq.mp (hfar s hs)

theorem tryCandidates_some (rng : ℕ → RandCell) (d w h : ℕ)
    (samples : List (ℕ × ℕ)) (cx cy : ℕ) :
    ∀ att k p k2, tryCandidates rng d w h samples cx cy att k = (some p, k2) →
      (p.1 < w ∧ p.2 < h) ∧ ∀ s ∈ samples, (d : ℤ) ^ 2 ≤ sqDist s p := by
  intro att
  induction att with
  | zero =>
    intro k p k2 hres
    exact absurd hres (by simp [tryCandidates])
  | succ a ih =>
    intro k p k2 hres
    simp only [tryCandidates] at hres
    split at hres
    · exact ih (k + 1) p k2 hres
    · rename_i q hq
      split at hres
      · rename_i hfar
        obtain ⟨h1, -⟩ := Prod.mk.injEq .. ▸ hres
        have hpq : q = p := Option.some.inj h1
        subst hpq
        exact ⟨candidatePoint_some w h cx cy _ _ q hq, farEnough_true d samples q hfar⟩
      · exact ih (k + 1) p k2 hres

theorem poissonLoop_invariant (rng : ℕ → RandCell) (d w h : ℕ) :
    ∀ fuel samples active k res k2,
      poissonLoop rng d w h fuel samples active k = some (res, k2) →
      (∀ p ∈ samples, p.1 < w ∧ p.2 < h) →
      List.Pairwise (fun a b => (d : ℤ) ^ 2 ≤ sqDist a b) samples →
      (∀ p ∈ res, p.1 < w ∧ p.2 < h) ∧
        List.Pairwise (fun a b => (d : ℤ) ^ 2 ≤ sqDist a b) res := by
  intro fuel
  induction fuel with
  | zero =>
    intro samples active k res k2 hres
    exact absurd hres (by simp [poissonLoop])
  | succ f ih =>
    intro samples active k res k2 hres hb hpw
    simp only [poissonLoop] at hres
    split at hres
    · obtain ⟨h1, -⟩ := Prod.mk.injEq .. ▸ Option.some.inj hres
      exact h1 ▸ ⟨hb, hpw⟩
    · rcases htc : tryCandidates rng d w h samples
          (samples.getD (active.getD (genRange 0 active.length (rng k).nat) 0) (0, 0)).1
          (samples.getD (active.getD (genRange 0 active.length (rng k).nat) 0) (0, 0)).2
          30 (k + 1) with ⟨o, kk⟩
      rw [htc] at hres
      cases o with
      | some p =>
        dsimp only at hres
        obtain ⟨⟨hp1, hp2⟩, hpfar⟩ := tryCandidates_some rng d w h samples _ _ 30 (k + 1) p kk htc
        refine ih (samples ++ [p]) (active ++ [samples.length]) kk res k2 hres ?_ ?_
        · intro q hq
          rcases List.mem_append.mp hq with hm | hm
          · exact hb q hm
          · rw [List.mem_singleton] at hm
            subst hm
            exact ⟨hp1, hp2⟩
        · rw [List.pairwise_append]
          refine ⟨hpw, List.pairwise_singleton _ _, ?_⟩
          intro a ha b hbm
          rw [List.mem_singleton] at hbm
          subst hbm
          exact hpfar a ha
      | none =>
        exact ih samples (swapRemove active (genRange 0 active.length (rng k).nat)) kk
          res k2 hres hb hpw

theorem samplePoissonDisc2d_sound (rng : ℕ → RandCell)
    (d w h fuel k : ℕ) (pts : List (ℕ × ℕ)) (k2 : ℕ)
    (hres : samplePoissonDisc2d rng d w h fuel k = some (pts, k2)) :
    (∀ p ∈ pts, p.1 < w ∧ p.2 < h) ∧
      List.Pairwise (fun a b => (d : ℤ) ^ 2 ≤ sqDist a b) pts := by
  unfold samplePoissonDisc2d at hres
  split at hres
  · exact absurd hres (by simp)
  · split at hres
    · exact absurd hres (by simp)
    · rename_i hdom
      push_neg at hdom
      dsimp only at hres
      refine poissonLoop_invariant rng d w h fuel _ _ _ pts k2 hres ?_
        (List.pairwise_singleton _ _)
      intro p hp
      rw [List.mem_singleton] at hp
      subst hp
      exact ⟨genRange_lt 0 w _ (by omega), genRange_lt 0 h _ (by omega)⟩

/-- C5: whenever `sample_poisson_disc_2d` returns, every returned point lies
inside the `[0, width) × [0, height)` domain, and every pair of returned
points is at Euclidean distance at least `min_distance` (stated exactly, on
squared distances: `d² ≤ (Δx)² + (Δy)²`). -/
theorem samplePoissonDisc2d_inBounds_pairwiseFar (rng : ℕ → RandCell)
    (d w h fuel k : ℕ) (pts : List (ℕ × ℕ)) (k2 : ℕ)
    (hres : samplePoissonDisc2d rng d w h fuel k = some (pts, k2)) :
    (∀ p ∈ pts, p.1 < w ∧ p.2 < h) ∧
      List.Pairwise (fun a b => (d : ℤ) ^ 2 ≤ sqDist a b) pts :=
  samplePoissonDisc2d_sound rng d w h fuel k pts k2 hres

/-- C5, witnessed on a concrete terminating run. -/
theorem samplePoissonDisc2d_inBounds_pairwiseFar_witness :
    samplePoissonDisc2d cexRand 2 1 1 3 0 = some ([(0, 0)], 33) ∧
      ((∀ p ∈ [((0 : ℕ), (0 : ℕ))], p.1 < 1 ∧ p.2 < 1) ∧
        List.Pairwise (fun a b => ((2 : ℕ) : ℤ) ^ 2 ≤ sqDist a b) [((0 : ℕ), (0 : ℕ))]) :=
  ⟨by decide, samplePoissonDisc2d_inBounds_pairwiseFar cexRand 2 1 1 3 0 [(0, 0)] 33
    (by decide)⟩

theorem foldl_set_window_length (c : ℕ) (l : List (ℕ × ℕ)) (base : Column) :
    (l.foldl (fun pixels w => if w.1 ≠ c then pixels else pixels.set w.2 Pixel.Window)
        base).length = base.length := by
  induction l generalizing base with
  | nil => rfl
  | cons wp rest ih =>
    rw [List.foldl_cons, ih]
    by_cases h : wp.1 ≠ c
    · rw [if_pos h]
    · rw [if_neg h, List.length_set]

theorem foldl_set_window_getD (c : ℕ) (l : List (ℕ × ℕ)) (base : Column) (r : ℕ)
    (hr : r < base.length) :
    (l.foldl (fun pixels w => if w.1 ≠ c then pixels else pixels.set w.2 Pixel.Window)
        base).getD r Pixel.Background
      = if (c, r) ∈ l then Pixel.Window else base.getD r Pixel.Background := by
  induction l generalizing base with
  | nil => simp
  | cons wp rest ih =>
    rw [List.foldl_cons]
    by_cases hx : wp.1 ≠ c
    · rw [if_pos hx, ih base hr]
      have hne : ((c, r) : ℕ × ℕ) ≠ wp := by
        intro hh
        exact hx (by rw [← hh])
      simp [List.mem_cons, hne]
    · rw [if_neg hx]
      push_neg at hx
      rw [ih (base.set wp.2 Pixel.Window) (by rw [List.length_set]; exact hr)]
      by_cases hmem : ((c, r) : ℕ × ℕ) ∈ rest
      · rw [if_pos hmem, if_pos (List.mem_cons_of_mem _ hmem)]
      · rw [if_neg hmem]
        by_cases hwr : wp.2 = r
        · have hpep : ((c, r) : ℕ × ℕ) = wp := by
            rw [Prod.ext_iff]
            exact ⟨hx.symm, hwr.symm⟩
          rw [if_pos (by rw [hpep]; exact List.mem_cons_self _ _), hwr,
            List.getD_eq_getElem?_getD,
            List.getElem?_set_self (by rw [← hwr] at hr; exact hwr ▸ hr),
            Option.getD_some]
        · have hne : ((c, r) : ℕ × ℕ) ≠ wp := by
            intro hh
            exact hwr (by rw [← hh])
          rw [if_neg (by simp [List.mem_cons, hne, hmem]),
            List.getD_eq_getElem?_getD, List.getElem?_set_ne hwr,
            ← List.getD_eq_getElem?_getD]

theorem replicate_getD (n : ℕ) (a d : Pixel) (r : ℕ) (hr : r < n) :
    (List.replicate n a).getD r d = a := by
  rw [List.getD_eq_getElem?_getD, List.getElem?_replicate_of_lt hr]
  rfl

theorem interiorBase_getD (n r : ℕ) (hr : r < n) :
    ((List.replicate n Pixel.Background).set 0 Pixel.Border).getD r Pixel.Background
      = if r = 0 then Pixel.Border else Pixel.Background := by
  by_cases h0 : r = 0
  · subst h0
    rw [if_pos rfl, List.getD_eq_getElem?_getD,
      List.getElem?_set_self (by simpa using hr), Option.getD_some]
  · rw [if_neg h0, List.getD_eq_getElem?_getD, List.getElem?_set_ne (by omega),
      List.getElem?_replicate_of_lt hr]
    rfl

theorem buildingColumn_length (b : Building) (i : ℕ) (hh : b.height ≠ 0) :
    (buildingColumn b i).length = b.height := by
  unfold buildingColumn
  rw [if_neg hh]
  dsimp only
  rw [foldl_set_window_length]
  by_cases hedge : i = 0 ∨ i = b.width - 1
  · rw [if_pos hedge, List.length_replicate]
  · rw [if_neg hedge, List.length_set, List.length_replicate]

theorem buildingColumn_getD (b : Building) (i r : ℕ) (hh : b.height ≠ 0)
    (hr : r < b.height) :
    (buildingColumn b i).getD r Pixel.Background
      = if (i, r) ∈ b.windows then Pixel.Window
        else if i = 0 ∨ i = b.width - 1 then Pixel.Border
        else if r = 0 then Pixel.Border else Pixel.Background := by
  unfold buildingColumn
  rw [if_neg hh]
  dsimp only
  by_cases hedge : i = 0 ∨ i = b.width - 1
  · rw [if_pos hedge,
      foldl_set_window_getD _ _ _ _ (by rw [List.length_replicate]; exact hr),
      replicate_getD _ _ _ _ hr]
    by_cases hmem : ((i, r) : ℕ × ℕ) ∈ b.windows <;> simp [hmem, hedge]
  · rw [if_neg hedge,
      foldl_set_window_getD _ _ _ _
        (by rw [List.length_set, List.length_replicate]; exact hr),
      interiorBase_getD _ _ hr]
    by_cases hmem : ((i, r) : ℕ × ℕ) ∈ b.windows <;> simp [hmem, hedge]

theorem iterColumns_getD (b : Building) (i : ℕ) (hi : i < b.width) :
    (iterColumns b).getD i [] = buildingColumn b i := by
  unfold iterColumns
  rw [List.getD_eq_getElem?_getD, List.getElem?_map, List.getElem?_range hi]
  rfl

/-- C6: with all windows strictly interior, `iter_columns` yields exactly
`width` columns; for a zero-height building every column is empty; otherwise
every column has length `height`, the two edge columns are entirely `Border`,
and every interior column has `Border` at row `0` and `Background` elsewhere,
except that the cell at row `r` is `Window` exactly when `(i, r)` is a window
of the building. -/
theorem iterColumns_spec (b : Building)
    (hwin : ∀ p ∈ b.windows, 0 < p.1 ∧ p.1 < b.width - 1 ∧ 0 < p.2 ∧ p.2 < b.height) :
    (iterColumns b).length = b.width ∧
    (b.height = 0 → ∀ col ∈ iterColumns b, col = []) ∧
    (b.height ≠ 0 → ∀ i, i < b.width →
      ((iterColumns b).getD i []).length = b.height ∧
      ((i = 0 ∨ i = b.width - 1) → ∀ r, r < b.height →
        ((iterColumns b).getD i []).getD r Pixel.Background = Pixel.Border) ∧
      (0 < i → i < b.width - 1 → ∀ r, r < b.height →
        ((iterColumns b).getD i []).getD r Pixel.Background =
          if r = 0 then Pixel.Border
          else if (i, r) ∈ b.windows then Pixel.Window else Pixel.Background)) := by
  refine ⟨by simp [iterColumns], ?_, ?_⟩
  · intro h0 col hcol
    obtain ⟨j, -, rfl⟩ := List.mem_map.mp hcol
    unfold buildingColumn
    rw [if_pos h0]
  · intro hh i hi
    rw [iterColumns_getD b i hi]
    refine ⟨buildingColumn_length b i hh, ?_, ?_⟩
    · intro hedge r hr
      rw [buildingColumn_getD b i r hh hr]
      have hmem : ¬ ((i, r) : ℕ × ℕ) ∈ b.windows := by
        intro hm
        obtain ⟨h1, h2, -, -⟩ := hwin _ hm
        rcases hedge with h | h <;> omega
      rw [if_neg hmem, if_pos hedge]
    · intro h0i hiw r hr
      rw [buildingColumn_getD b i r hh hr]
      have hedge : ¬ (i = 0 ∨ i = b.width - 1) := by omega
      by_cases hr0 : r = 0
      · subst hr0
        have hmem : ¬ ((i, 0) : ℕ × ℕ) ∈ b.windows := by
          intro hm
          obtain ⟨-, -, h3, -⟩ := hwin _ hm
          omega
        rw [if_neg hmem, if_neg hedge, if_pos rfl, if_pos rfl]
      · by_cases hmem : ((i, r) : ℕ × ℕ) ∈ b.windows
        · rw [if_pos hmem, if_neg hr0, if_pos hmem]
        · rw [if_neg hmem, if_neg hedge, if_neg hr0, if_neg hr0, if_neg hmem]

/-- C6, witnessed on a concrete building with one window. -/
theorem iterColumns_spec_witness :
    (∀ p ∈ (Building.mk 5 5 [(2, 2)]).windows,
        0 < p.1 ∧ p.1 < (Building.mk 5 5 [(2, 2)]).width - 1 ∧
        0 < p.2 ∧ p.2 < (Building.mk 5 5 [(2, 2)]).height) ∧
      ((iterColumns (Building.mk 5 5 [(2, 2)])).length = (Building.mk 5 5 [(2, 2)]).width ∧
        ((Building.mk 5 5 [(2, 2)]).height = 0 →
          ∀ col ∈ iterColumns (Building.mk 5 5 [(2, 2)]), col = []) ∧
        ((Building.mk 5 5 [(2, 2)]).height ≠ 0 →
          ∀ i, i < (Building.mk 5 5 [(2, 2)]).width →
          ((iterColumns (Building.mk 5 5 [(2, 2)])).getD i []).length
              = (Building.mk 5 5 [(2, 2)]).height ∧
          ((i = 0 ∨ i = (Building.mk 5 5 [(2, 2)]).width - 1) →
            ∀ r, r < (Building.mk 5 5 [(2, 2)]).height →
            ((iterColumns (Building.mk 5 5 [(2, 2)])).getD i []).getD r Pixel.Background
              = Pixel.Border) ∧
          (0 < i → i < (Building.mk 5 5 [(2, 2)]).width - 1 →
            ∀ r, r < (Building.mk 5 5 [(2, 2)]).height →
            ((iterColumns (Building.mk 5 5 [(2, 2)])).getD i []).getD r Pixel.Background
              = if r = 0 then Pixel.Border
                else if (i, r) ∈ (Building.mk 5 5 [(2, 2)]).windows then Pixel.Window
                else Pixel.Background))) :=
  ⟨by decide, iterColumns_spec (Building.mk 5 5 [(2, 2)]) (by decide)⟩

theorem chooseMultiple_subset (rng : ℕ → RandCell) :
    ∀ amount l k p, p ∈ (chooseMultiple rng amount l k).1 → p ∈ l := by
  intro amount
  induction amount with
  | zero =>
    intro l k p hp
    exact absurd hp (by simp [chooseMultiple])
  | succ a ih =>
    intro l k p hp
    simp only [chooseMultiple] at hp
    split at hp
    · exact absurd hp (by simp)
    · rename_i hlen
      rw [List.mem_cons] at hp
      rcases hp with hp | hp
      · subst hp
        have hidx : (rng k).nat % l.length < l.length := Nat.mod_lt _ (by omega)
        rw [List.getD_eq_getElem?_getD, List.getElem?_eq_getElem hidx]
        exact List.getElem_mem hidx
      · exact List.eraseIdx_subset _ _ (ih _ _ _ hp)

theorem genWindows_some (rng : ℕ → RandCell) (minDist maxW width height fuel k : ℕ)
    (ws : List (ℕ × ℕ)) (k2 : ℕ)
    (hres : genWindows rng minDist maxW width height fuel k = some (ws, k2)) :
    (∀ p ∈ ws, 0 < p.1 ∧ p.1 < width - 1 ∧ 0 < p.2 ∧ p.2 < height) ∧
      (width < 5 ∨ height < 4 → ws = []) := by
  unfold genWindows at hres
  by_cases hsmall : width < 5 ∨ height < 4
  · rw [if_pos hsmall] at hres
    obtain ⟨h1, -⟩ := Prod.mk.injEq .. ▸ Option.some.inj hres
    refine ⟨?_, fun _ => h1.symm⟩
    intro p hp
    rw [← h1] at hp
    exact absurd hp (by simp)
  · rw [if_neg hsmall] at hres
    rcases hpd : samplePoissonDisc2d rng minDist (width - 4) (height - 3) fuel k
        with - | ⟨pts, k1⟩
    · rw [hpd] at hres
      exact absurd hres (by simp)
    · rw [hpd] at hres
      dsimp only at hres
      obtain ⟨h1, -⟩ := Prod.mk.injEq .. ▸ Option.some.inj hres
      refine ⟨?_, fun hsm => absurd hsm hsmall⟩
      intro p hp
      rw [← h1, List.mem_map] at hp
      obtain ⟨q, hq, rfl⟩ := hp
      have hqpts := chooseMultiple_subset rng maxW pts k1 q hq
      obtain ⟨hb, -⟩ := samplePoissonDisc2d_sound rng minDist (width - 4) (height - 3)
        fuel k pts k1 hpd
      obtain ⟨hq1, hq2⟩ := hb q hqpts
      push_neg at hsmall
      omega

/-- C7: every building returned by the generator has all of its windows
strictly inside the building interior (`0 < x < width - 1`, `0 < y < height`),
and buildings with `width < 5` or `height < 4` have no windows at all. -/
theorem nextBuilding_windows_interior (rng : ℕ → RandCell) (cfg : GenConfig)
    (prev fuel k : ℕ) (b : Building) (prev2 k2 : ℕ)
    (hres : nextBuilding rng cfg prev fuel k = some (b, prev2, k2)) :
    (∀ p ∈ b.windows, 0 < p.1 ∧ p.1 < b.width - 1 ∧ 0 < p.2 ∧ p.2 < b.height) ∧
      (b.width < 5 ∨ b.height < 4 → b.windows = []) := by
  unfold nextBuilding at hres
  rcases hdh : drawHeight rng cfg.heightLo cfg.heightHi prev fuel k with - | ⟨h, k1⟩
  · rw [hdh] at hres
    exact absurd hres (by simp)
  · rw [hdh] at hres
    dsimp only at hres
    rcases hgw : genWindows rng cfg.minWindowDistance cfg.maxWindows
        (genRange cfg.widthLo cfg.widthHi (rng k1).nat) h fuel (k1 + 1) with - | ⟨ws, k3⟩
    · rw [hgw] at hres
      exact absurd hres (by simp)
    · rw [hgw] at hres
      simp only [Option.some.injEq, Prod.mk.injEq] at hres
      obtain ⟨hb, -, -⟩ := hres
      subst hb
      exact genWindows_some rng cfg.minWindowDistance cfg.maxWindows _ h fuel (k1 + 1)
        ws k3 hgw

/-- C7, witnessed on a concrete generated building with two windows. -/
theorem nextBuilding_windows_interior_witness :
    nextBuilding cexRand cexCfg 0 50 0 =
        some (Building.mk 6 5 [(2, 2), (2, 4)], 6, 70) ∧
      ((∀ p ∈ (Building.mk 6 5 [(2, 2), (2, 4)]).windows,
          0 < p.1 ∧ p.1 < (Building.mk 6 5 [(2, 2), (2, 4)]).width - 1 ∧
          0 < p.2 ∧ p.2 < (Building.mk 6 5 [(2, 2), (2, 4)]).height) ∧
        ((Building.mk 6 5 [(2, 2), (2, 4)]).width < 5 ∨
            (Building.mk 6 5 [(2, 2), (2, 4)]).height < 4 →
          (Building.mk 6 5 [(2, 2), (2, 4)]).windows = [])) :=
  ⟨by decide, nextBuilding_windows_interior cexRand cexCfg 0 50 0
    (Building.mk 6 5 [(2, 2), (2, 4)]) 6 70 (by decide)⟩

/-- C8 counterexample: a concrete generator draw yields the building
`{height 6, width 5, windows [(2, 2), (2, 4)]}`, whose two windows share the
column coordinate `2`, so the window columns are not pairwise distinct. -/
theorem nextBuilding_shared_window_column_cex :
    (nextBuilding cexRand cexCfg 0 50 0).map (fun r => r.1.windows)
        = some [(2, 2), (2, 4)] ∧
      ¬ List.Pairwise (fun a b : ℕ × ℕ => a.1 ≠ b.1) [((2 : ℕ), (2 : ℕ)), (2, 4)] :=
  ⟨by decide, by decide⟩

theorem getD_not_mem_eraseIdx (l : List (ℕ × ℕ)) (i : ℕ) (d : ℕ × ℕ)
    (hnd : l.Nodup) (hi : i < l.length) : l.getD i d ∉ l.eraseIdx i := by
  rw [List.getD_eq_getElem?_getD, List.getElem?_eq_getElem hi]
  intro hmem
  rw [List.eraseIdx_eq_take_drop_succ, List.mem_append] at hmem
  rcases hmem with hm | hm
  · obtain ⟨j, hj, hje⟩ := List.mem_iff_getElem.mp hm
    have hjlen : j < l.length := by
      have := List.length_take_le i l
      omega
    rw [List.getElem_take] at hje
    have hij : j = i := (List.Nodup.getElem_inj_iff hnd).mp (by simpa using hje)
    have hji : j < i := by
      have := hj
      simp only [List.length_take] at this
      omega
    omega
  · obtain ⟨j, hj, hje⟩ := List.mem_iff_getElem.mp hm
    have hjlen : i + 1 + j < l.length := by
      have := hj
      simp only [List.length_drop] at this
      omega
    rw [List.getElem_drop] at hje
    have hij : i + 1 + j = i := (List.Nodup.getElem_inj_iff hnd).mp (by simpa using hje)
    omega

theorem chooseMultiple_nodup (rng : ℕ → RandCell) :
    ∀ amount l k, l.Nodup → (chooseMultiple rng amount l k).1.Nodup := by
  intro amount
  induction amount with
  | zero =>
    intro l k _
    simp [chooseMultiple]
  | succ a ih =>
    intro l k hnd
    simp only [chooseMultiple]
    split
    · simp
    · rename_i hlen
      rw [List.nodup_cons]
      refine ⟨?_, ih _ _ ((List.eraseIdx_sublist l _).nodup hnd)⟩
      intro hmem
      exact getD_not_mem_eraseIdx l _ (0, 0) hnd (Nat.mod_lt _ (by omega))
        (chooseMultiple_subset rng a _ _ _ hmem)

theorem sqDist_self (a : ℕ × ℕ) : sqDist a a = 0 := by
  unfold sqDist
  ring

theorem samplePoissonDisc2d_nodup (rng : ℕ → RandCell) (d w h fuel k : ℕ)
    (pts : List (ℕ × ℕ)) (k2 : ℕ) (hd : 1 ≤ d)
    (hres : samplePoissonDisc2d rng d w h fuel k = some (pts, k2)) : pts.Nodup := by
  obtain ⟨-, hpw⟩ := samplePoissonDisc2d_sound rng d w h fuel k pts k2 hres
  refine hpw.imp ?_
  intro a b hab heq
  subst heq
  rw [sqDist_self] at hab
  have hd1 : (1 : ℤ) ≤ (d : ℤ) := by exact_mod_cast hd
  nlinarith

theorem genWindows_nodup (rng : ℕ → RandCell) (minDist maxW width height fuel k : ℕ)
    (ws : List (ℕ × ℕ)) (k2 : ℕ) (hd : 1 ≤ minDist)
    (hres : genWindows rng minDist maxW width height fuel k = some (ws, k2)) :
    ws.Nodup := by
  unfold genWindows at hres
  by_cases hsmall : width < 5 ∨ height < 4
  · rw [if_pos hsmall] at hres
    obtain ⟨h1, -⟩ := Prod.mk.injEq .. ▸ Option.some.inj hres
    rw [← h1]
    simp
  · rw [if_neg hsmall] at hres
    rcases hpd : samplePoissonDisc2d rng minDist (width - 4) (height - 3) fuel k
        with - | ⟨pts, k1⟩
    · rw [hpd] at hres
      exact absurd hres (by simp)
    · rw [hpd] at hres
      dsimp only at hres
      obtain ⟨h1, -⟩ := Prod.mk.injEq .. ▸ Option.some.inj hres
      rw [← h1]
      refine List.Nodup.map ?_ (chooseMultiple_nodup rng maxW pts k1
        (samplePoissonDisc2d_nodup rng minDist _ _ fuel k pts k1 hd hpd))
      intro p q hpq
      have hpq2 : (p.1 + 2, p.2 + 2) = (q.1 + 2, q.2 + 2) := hpq
      rw [Prod.ext_iff] at hpq2 ⊢
      omega

/-- C8 amended: when the minimum window distance is at least `1`, the windows
of every generated building are pairwise distinct as (column, row) pairs;
their column coordinates alone need not be distinct (two windows of one
building can share a column). -/
theorem nextBuilding_windows_nodup (rng : ℕ → RandCell) (cfg : GenConfig)
    (prev fuel k : ℕ) (b : Building) (prev2 k2 : ℕ)
    (hd : 1 ≤ cfg.minWindowDistance)
    (hres : nextBuilding rng cfg prev fuel k = some (b, prev2, k2)) :
    b.windows.Nodup := by
  unfold nextBuilding at hres
  rcases hdh : drawHeight rng cfg.heightLo cfg.heightHi prev fuel k with - | ⟨h, k1⟩
  · rw [hdh] at hres
    exact absurd hres (by simp)
  · rw [hdh] at hres
    dsimp only at hres
    rcases hgw : genWindows rng cfg.minWindowDistance cfg.maxWindows
        (genRange cfg.widthLo cfg.widthHi (rng k1).nat) h fuel (k1 + 1) with - | ⟨ws, k3⟩
    · rw [hgw] at hres
      exact absurd hres (by simp)
    · rw [hgw] at hres
      simp only [Option.some.injEq, Prod.mk.injEq] at hres
      obtain ⟨hb, -, -⟩ := hres
      subst hb
      exact genWindows_nodup rng cfg.minWindowDistance cfg.maxWindows _ h fuel (k1 + 1)
        ws k3 hd hgw

/-- C8 amended, witnessed on the same concrete generator draw. -/
theorem nextBuilding_windows_nodup_witness :
    1 ≤ cexCfg.minWindowDistance ∧
      (Building.mk 6 5 [(2, 2), (2, 4)]).windows.Nodup :=
  ⟨by decide, nextBuilding_windows_nodup cexRand cexCfg 0 50 0
    (Building.mk 6 5 [(2, 2), (2, 4)]) 6 70 (by decide) (by decide)⟩

theorem rangeSym_mem (r : ℕ) (x : ℤ) : x ∈ rangeSym r ↔ -(r : ℤ) ≤ x ∧ x ≤ (r : ℤ) := by
  unfold rangeSym
  constructor
  · intro hx
    obtain ⟨i, hi, hix⟩ := List.mem_map.mp hx
    replace hix : (i : ℤ) - (r : ℤ) = x := hix
    rw [List.mem_range] at hi
    omega
  · rintro ⟨h1, h2⟩
    apply List.mem_map.mpr
    refine ⟨(x + (r : ℤ)).toNat, List.mem_range.mpr (by omega), ?_⟩
    show ((x + (r : ℤ)).toNat : ℤ) - (r : ℤ) = x
    omega

/-- C9: under the overflow preconditions (the source's `assert!`s),
`filled_circle` contains a lattice point exactly when it lies strictly inside
the disc: `(a, b)` is enumerated iff `(a - cx)² + (b - cy)² < radius²`;
boundary points are excluded. -/
theorem filledCircle_mem_iff (cx cy : ℤ) (radius : ℕ) (a b : ℤ)
    (hrad : 2 * (radius : ℤ) ^ 2 ≤ i32MaxZ)
    (hcx1 : cx ≤ i32MaxZ - (radius : ℤ)) (hcx2 : i32MinZ + (radius : ℤ) ≤ cx)
    (hcy1 : cy ≤ i32MaxZ - (radius : ℤ)) (hcy2 : i32MinZ + (radius : ℤ) ≤ cy) :
    (a, b) ∈ filledCircle cx cy radius ↔
      (a - cx) ^ 2 + (b - cy) ^ 2 < (radius : ℤ) ^ 2 := by
  unfold filledCircle
  rw [if_neg (not_not.mpr ⟨hrad, hcx1, hcx2, hcy1, hcy2⟩), List.mem_map]
  constructor
  · rintro ⟨p, hp, heq⟩
    rw [List.mem_filter, decide_eq_true_eq] at hp
    obtain ⟨-, hplt⟩ := hp
    have ha : p.1 + cx = a := congrArg Prod.fst heq
    have hb : p.2 + cy = b := congrArg Prod.snd heq
    rw [show a - cx = p.1 by omega, show b - cy = p.2 by omega, pow_two, pow_two, pow_two]
    exact hplt
  · intro hlt
    refine ⟨(a - cx, b - cy), ?_, by rw [Prod.ext_iff]; constructor <;> dsimp only <;> ring⟩
    rw [List.mem_filter, decide_eq_true_eq]
    have hax1 : -(radius : ℤ) ≤ a - cx := by nlinarith [sq_nonneg (b - cy), sq_nonneg (a - cx + radius)]
    have hax2 : a - cx ≤ (radius : ℤ) := by nlinarith [sq_nonneg (b - cy), sq_nonneg (a - cx - radius)]
    have hby1 : -(radius : ℤ) ≤ b - cy := by nlinarith [sq_nonneg (a - cx), sq_nonneg (b - cy + radius)]
    have hby2 : b - cy ≤ (radius : ℤ) := by nlinarith [sq_nonneg (a - cx), sq_nonneg (b - cy - radius)]
    constructor
    · rw [List.mem_flatMap]
      refine ⟨a - cx, (rangeSym_mem radius (a - cx)).mpr ⟨hax1, hax2⟩, ?_⟩
      rw [List.mem_map]
      exact ⟨b - cy, (rangeSym_mem radius (b - cy)).mpr ⟨hby1, hby2⟩, rfl⟩
    · dsimp only
      rw [← pow_two, ← pow_two, ← pow_two]
      exact hlt

/-- C9, witnessed at the spec's concrete instance: center `(0, 0)`,
radius `3`, point `(2, 2)` (inside: `8 < 9`). -/
theorem filledCircle_mem_iff_witness :
    (2 * ((3 : ℕ) : ℤ) ^ 2 ≤ i32MaxZ ∧
      (0 : ℤ) ≤ i32MaxZ - ((3 : ℕ) : ℤ) ∧ i32MinZ + ((3 : ℕ) : ℤ) ≤ (0 : ℤ)) ∧
      (((2, 2) ∈ filledCircle 0 0 3) ↔
        ((2 : ℤ) - 0) ^ 2 + ((2 : ℤ) - 0) ^ 2 < ((3 : ℕ) : ℤ) ^ 2) :=
  ⟨by decide, filledCircle_mem_iff 0 0 3 2 2 (by decide) (by decide) (by decide)
    (by decide) (by decide)⟩

/-- C10 counterexample: the pipeline's configuration does not determine its
output.  Two runs of `runPipeline` with the identical configuration `pipeCfg`
(and identical building count and fuel) but different ambient `thread_rng`
streams produce different column sequences — there is no injected seed in the
source (`skyline.rs` calls `thread_rng()` directly in `next` and
`gen_windows`), so fixing a seed is not possible and reproducibility given
only the configuration fails. -/
theorem runPipeline_ambient_dependence_cex :
    runPipeline ambientRandA pipeCfg 2 10 = some [] ∧
      runPipeline ambientRandB pipeCfg 2 10 = some [[Pixel.Border, Pixel.Border]] ∧
      runPipeline ambientRandA pipeCfg 2 10 ≠ runPipeline ambientRandB pipeCfg 2 10 :=
  ⟨by decide, by decide, by decide⟩

/-- C10 amended: the pipeline is deterministic given the configuration *and*
the full ambient random stream (the state of `thread_rng`): two runs that
agree on both produce identical column sequences.  Only the Poisson-disc
sampler takes an injected `rng` parameter; the generator itself draws from
the ambient stream, so reproducibility requires fixing the ambient stream,
not a seed parameter of the pipeline. -/
theorem runPipeline_deterministic (r1 r2 : ℕ → RandCell) (cfg1 cfg2 : GenConfig)
    (n1 n2 fuel1 fuel2 : ℕ) (hr : r1 = r2) (hcfg : cfg1 = cfg2) (hn : n1 = n2)
    (hfuel : fuel1 = fuel2) :
    runPipeline r1 cfg1 n1 fuel1 = runPipeline r2 cfg2 n2 fuel2 := by
  subst hr
  subst hcfg
  subst hn
  subst hfuel
  rfl

/-- C10 amended, witnessed at a concrete run. -/
theorem runPipeline_deterministic_witness :
    (ambientRandA = ambientRandA ∧ pipeCfg = pipeCfg) ∧
      runPipeline ambientRandA pipeCfg 2 10 = runPipeline ambientRandA pipeCfg 2 10 :=
  ⟨⟨rfl, rfl⟩, runPipeline_deterministic ambientRandA ambientRandA pipeCfg pipeCfg
    2 2 10 10 rfl rfl rfl rfl⟩
